import Mathlib

/-!
Verification development for the Orbit portfolio search engine
(`search_engine/indexer.py` and `search_engine/server.py`).

Strings are modelled as `List Char` (`Str`); Python string operations used
by the code (`str.lower`, `str.strip`, `str.split`, `str.count`, `in`,
`os.path.splitext`, `pathlib.PurePath.suffix/stem`) are given explicit
executable models below, each annotated with the Python behaviour it mirrors.
-/

abbrev Str := List Char

/-- Python `str.lower()` (the files indexed are ASCII; `Char.toLower`
agrees with Python on ASCII). -/
def lower (s : Str) : Str := s.map Char.toLower

/-- Python `str.strip()`: remove leading and trailing whitespace. -/
def pyStrip (s : Str) : Str :=
  ((s.dropWhile Char.isWhitespace).reverse.dropWhile Char.isWhitespace).reverse

/-- One step of splitting on a separator character; used to model Python
`str.split(sep)`, which keeps empty components. -/
def splitStep (sep : Char) (c : Char) (acc : List Str) : List Str :=
  if c == sep then [] :: acc
  else
    match acc with
    | [] => [[c]]
    | w :: ws => (c :: w) :: ws

/-- Python `s.split(sep)` for a one-character separator: components between
separators, empty components kept (`"".split(sep) == [""]`). -/
def pySplitOn (sep : Char) (s : Str) : List Str :=
  s.foldr (splitStep sep) [[]]

/-- The split `path_lower.split(os.sep)` with `os.sep == '/'`. -/
def pySplitSlash (s : Str) : List Str := pySplitOn '/' s

/-- One step of whitespace splitting; models Python `str.split()` with no
argument. -/
def wordsStep (c : Char) (acc : List Str) : List Str :=
  if c.isWhitespace then [] :: acc
  else
    match acc with
    | [] => [[c]]
    | w :: ws => (c :: w) :: ws

/-- Python `str.split()` with no argument: maximal runs of non-whitespace
characters; never yields empty components. -/
def pyWords (s : Str) : List Str :=
  (s.foldr wordsStep []).filter (fun w => !w.isEmpty)

/-- Python substring test `t in s`. -/
def containsSub (t : Str) (s : Str) : Bool :=
  match s with
  | [] => t.isEmpty
  | c :: rest => t.isPrefixOf (c :: rest) || containsSub t rest

/-- Helper for `countOcc`: scans `s` left to right; `skip` characters are
still to be skipped after the previous (non-overlapping) match. -/
def countOccAux (t : Str) : Str → Nat → Nat
  | [], _ => 0
  | _ :: rest, k + 1 => countOccAux t rest k
  | c :: rest, 0 =>
    if t.isPrefixOf (c :: rest) then 1 + countOccAux t rest (t.length - 1)
    else countOccAux t rest 0

/-- Python `s.count(t)`: number of non-overlapping occurrences of `t` in
`s`, scanning left to right (`"aaaa".count("aa") == 2`;
`s.count("") == len(s) + 1`). -/
def countOcc (t : Str) (s : Str) : Nat :=
  if t.isEmpty then s.length + 1 else countOccAux t s 0

/-- Index of the last `'.'` in a filename, if any. -/
def lastDotIdx (n : Str) : Option Nat :=
  match n.reverse.findIdx? (fun c => c == '.') with
  | some j => some (n.length - 1 - j)
  | none => none

/-- The stem part of `os.path.splitext(n)` (`posixpath._splitext` for a
name with no `/`): split at the last dot, unless every character before
that dot is itself a dot (so `".bashrc"` and `".."` have no extension). -/
def splitextStem (n : Str) : Str :=
  match lastDotIdx n with
  | some i => if (n.take i).any (fun c => !(c == '.')) then n.take i else n
  | none => n

/-- Python `pathlib.PurePath.suffix`: `name[i:]` for the last dot index `i` when
`0 < i < len(name) - 1`, else empty. -/
def pySuffix (n : Str) : Str :=
  match lastDotIdx n with
  | some i => if 0 < i ∧ i < n.length - 1 then n.drop i else []
  | none => []

/-- Python `pathlib.PurePath.stem`: the name with `pySuffix` removed. -/
def pyStem (n : Str) : Str :=
  match lastDotIdx n with
  | some i => if 0 < i ∧ i < n.length - 1 then n.take i else n
  | none => n

/-- Rendering `str(pathlib.PurePath)` for a relative path given as segments:
segments joined with `/`. -/
def joinPath : List Str → Str
  | [] => []
  | [p] => p
  | p :: rest => p ++ '/' :: joinPath rest

/-- One indexed document: the dictionary built by
`PortfolioIndexer.index_file` (field `type` of the Python dict is named
`ftype` here because `type` is unavailable as a field name). -/
structure FileInfo where
  name : Str
  path : Str
  full_path : Str
  title : Str
  headers : List Str
  keywords : List Str
  content : Str
  size : Nat
  ftype : Str
  github_url : Str
deriving DecidableEq

/-- A search hit: `{**file_info, "score": total_score}`. -/
structure ScoredFile where
  info : FileInfo
  score : Nat
deriving DecidableEq

/-! ## The per-term scorer of the server (`server.py`, route `/api/search`) -/

/-- Lines 57-63 of `server.py`: parent-folder + readme bonus.  Requires the
lower-cased relative path to have at least two segments; the immediate
parent segment must equal the term and the lower-cased filename must be
the literal `readme.md` or `readme`. -/
def readmeBonus (term : Str) (fi : FileInfo) : Nat :=
  let path_parts := pySplitSlash (lower fi.path)
  if 2 ≤ path_parts.length then
    let parent_folder := path_parts.getD (path_parts.length - 2) []
    if parent_folder = term ∧
        (lower fi.name = "readme.md".toList ∨ lower fi.name = "readme".toList)
      then 300 else 0
  else 0

/-- Lines 65-71 of `server.py`: 200 for an exact filename match (filename
lower-cased, extension stripped with `os.path.splitext`), `elif` 100 for a
partial filename match. -/
def filenameScore (term : Str) (fi : FileInfo) : Nat :=
  let filename_lower := lower fi.name
  if splitextStem filename_lower = term then 200
  else if containsSub term filename_lower then 100
  else 0

/-- Lines 73-83 of `server.py`: 150 if some path segment equals the term
(`for`-loop with `break`), else (`for`-`else`) 50 if some segment contains
the term. -/
def folderScore (term : Str) (fi : FileInfo) : Nat :=
  let path_parts := pySplitSlash (lower fi.path)
  if path_parts.any (fun folder => folder == term) then 150
  else if path_parts.any (fun folder => containsSub term folder) then 50
  else 0

/-- Lines 85-88 of `server.py`: 5 points per occurrence of the term in the
lower-cased content excerpt. -/
def contentScore (term : Str) (fi : FileInfo) : Nat :=
  countOcc term (lower fi.content) * 5

/-- Lines 90-92 of `server.py`: 120 if the term occurs in the lower-cased
title. -/
def titleScore (term : Str) (fi : FileInfo) : Nat :=
  if containsSub term (lower fi.title) then 120 else 0

/-- Lines 94-97 of `server.py`: 30 per header containing the term. -/
def headerScore (term : Str) (fi : FileInfo) : Nat :=
  30 * fi.headers.countP (fun h => containsSub term (lower h))

/-- Lines 99-102 of `server.py`: 40 per keyword containing the term. -/
def keywordScore (term : Str) (fi : FileInfo) : Nat :=
  40 * fi.keywords.countP (fun k => containsSub term (lower k))

/-- Total contribution of one (already lower-cased) query term to
`total_score` in the search route of `server.py` (lines 53-102); the
Python code accumulates the same summands with `+=`. -/
def serverTermScore (term : Str) (fi : FileInfo) : Nat :=
  readmeBonus term fi + filenameScore term fi + folderScore term fi +
    contentScore term fi + titleScore term fi + headerScore term fi +
    keywordScore term fi

/-! ## The scorer of the indexer (`indexer.py`, `calculate_priority`) -/

/-- Method `PortfolioIndexer.calculate_priority` (`indexer.py` lines 22-49):
100 for a filename substring match, 50 if some path segment contains the
term, 10 per content occurrence.  Note it lower-cases the term itself. -/
def calculate_priority (term : Str) (fi : FileInfo) : Nat :=
  let term_lower := lower term
  let filename := lower fi.name
  let s1 := if containsSub term_lower filename then 100 else 0
  let s2 := if (pySplitSlash (lower fi.path)).any
      (fun folder => containsSub term_lower folder) then 50 else 0
  s1 + s2 + countOcc term_lower (lower fi.content) * 10

/-! ## Search: scoring every record, filtering zero scores, stable sort -/

/-- The `results` list accumulated by both search implementations before
sorting: every file whose total score over all terms is positive, paired
with that score, in the order the records appear in the index. -/
def scoredList (score : Str → FileInfo → Nat) (terms : List Str)
    (files : List FileInfo) : List ScoredFile :=
  files.filterMap (fun fi =>
    let total := (terms.map (fun t => score t fi)).sum
    if 0 < total then some ⟨fi, total⟩ else none)

/-- Insert `x` into `l` keeping `x` before the first element `y` with
`le x y`; building block of the stable insertion sort below. -/
def insertBy (le : α → α → Bool) (x : α) : List α → List α
  | [] => [x]
  | y :: ys => if le x y then x :: y :: ys else y :: insertBy le x ys

/-- Stable insertion sort: the Python `list.sort` method is a stable
sort, and a stable sort is uniquely determined by its comparator, so this
model is extensionally the sort the Python code performs. -/
def sortBy (le : α → α → Bool) : List α → List α
  | [] => []
  | x :: xs => insertBy le x (sortBy le xs)

/-- Whether `x` may precede `y` in the descending-by-score order: the
stable descending sort keeps `x` before `y` exactly when the score of `y`
does not exceed the score of `x`. -/
def scoreGe (x y : ScoredFile) : Bool := decide (y.score ≤ x.score)

/-- The sort `results.sort(key=lambda x: x["score"], reverse=True)`. -/
def sortByScore (l : List ScoredFile) : List ScoredFile := sortBy scoreGe l

/-- The lower-cased whitespace-split terms used by the server route:
the stripped `q` request argument, then `query.lower().split()`. -/
def serverTerms (q : Str) : List Str := pyWords (lower (pyStrip q))

/-- The `server.py` search route (lines 39-114): strip the query, return `[]`
if it is empty, otherwise score every record per term, keep positive
totals, sort descending by score, truncate to 50. -/
def serverSearch (q : Str) (files : List FileInfo) : List ScoredFile :=
  if (pyStrip q).isEmpty then []
  else (sortByScore (scoredList serverTermScore (serverTerms q) files)).take 50

/-- Method `PortfolioIndexer.search` (`indexer.py` lines 181-199): lower-case and
split the query, score with `calculate_priority`, keep positive totals,
sort descending by score.  No truncation. -/
def indexerSearch (q : Str) (files : List FileInfo) : List ScoredFile :=
  sortByScore (scoredList calculate_priority (pyWords (lower q)) files)

/-! ## Metadata extraction (`PortfolioIndexer.extract_metadata`) -/

/-- The backtick character used as the inline-code delimiter. -/
def backtickChar : Char := Char.ofNat 96

/-- Scanner for `re.findall` with the inline-code pattern (a backtick, one
or more non-backticks, a backtick): `cur = none` while outside a span;
`cur = some w` holds the reversed characters read since an opening
delimiter.  An immediately repeated delimiter restarts the span, exactly
as the regex engine re-attempts the match one position later. -/
def findallAux : Str → Option Str → List Str
  | [], _ => []
  | c :: rest, none =>
    if c == backtickChar then findallAux rest (some [])
    else findallAux rest none
  | c :: rest, some w =>
    if c == backtickChar then
      if w.isEmpty then findallAux rest (some [])
      else w.reverse :: findallAux rest none
    else findallAux rest (some (c :: w))

/-- Matches of the inline-code pattern, as `re.findall` returns them for
one line (`indexer.py` line 72). -/
def findallCode (line : Str) : List Str := findallAux line none

/-- The keyword-set update of `extract_metadata`: the Python `set` is
modelled as a duplicate-free list in first-insertion order (no claim
depends on the unspecified iteration order of a Python `set`). -/
def addKeywords (ks : List Str) (new : List Str) : List Str :=
  new.foldl (fun acc k => if acc.contains k then acc else acc ++ [k]) ks

/-- The `{title, headers, keywords}` dictionary of `extract_metadata`. -/
structure Metadata where
  title : Str
  headers : List Str
  keywords : List Str
deriving DecidableEq

/-- One loop iteration of `extract_metadata` (`indexer.py` lines 60-73):
the first `# `-line (while no title is set) becomes the title; every
`#`-line, markers and following whitespace stripped, is appended to the
headers; backtick-delimited substrings join the keyword set. -/
def mdStep (m : Metadata) (line : Str) : Metadata :=
  let title :=
    if "# ".toList.isPrefixOf line && m.title.isEmpty then pyStrip (line.drop 2)
    else m.title
  let headers :=
    if "#".toList.isPrefixOf line then
      m.headers ++
        [pyStrip ((line.dropWhile (fun c => c == '#')).dropWhile Char.isWhitespace)]
    else m.headers
  let keywords :=
    if line.contains backtickChar then addKeywords m.keywords (findallCode line)
    else m.keywords
  ⟨title, headers, keywords⟩

/-- Method `PortfolioIndexer.extract_metadata` (`indexer.py` lines 51-75). -/
def extract_metadata (content : Str) : Metadata :=
  (pySplitOn '\n' content).foldl mdStep ⟨[], [], []⟩

/-! ## Indexing (`should_index`, `index_file`, `build_index`) -/

/-- The `exclude_dirs` set of `should_index` (`indexer.py` line 84); the
Python set literal writes `__pycache__` twice, which is the same set. -/
def excludeDirs : List Str :=
  ["node_modules".toList, "venv".toList, "__pycache__".toList, ".git".toList]

/-- The `exclude_extensions` set of `should_index` (`indexer.py` lines 89-91). -/
def excludeExtensions : List Str :=
  [".pyc", ".pyo", ".so", ".dylib", ".dll", ".exe", ".bin",
   ".jpg", ".jpeg", ".png", ".gif", ".bmp", ".ico", ".svg",
   ".mp4", ".avi", ".mov", ".mp3", ".wav", ".zip", ".tar", ".gz"].map
    String.toList

/-- Method `PortfolioIndexer.should_index` (`indexer.py` lines 77-96) on the
parts of the (absolute) path: reject paths with a hidden segment, with an
excluded segment, or with an excluded extension.  The trailing
`path.is_file()` test is modelled by the call sites, which apply
`should_index` only to regular files. -/
def should_index (parts : List Str) : Bool :=
  if parts.any (fun part => ['.'].isPrefixOf part) then false
  else if excludeDirs.any (fun ex => parts.contains ex) then false
  else if excludeExtensions.contains (lower (pySuffix (parts.getLastD []))) then
    false
  else true

/-- Method `PortfolioIndexer.index_file` (`indexer.py` lines 121-156) for a file
whose path relative to the root is `relParts` and whose text is `content`
(the successful-read branch; a read error returns `None` and is skipped).
`st_size` is modelled as the character count of the content, and absolute
paths are rendered by joining `rootParts ++ relParts`. -/
def index_file (rootParts relParts : List Str) (content : Str) : FileInfo :=
  let name := relParts.getLastD []
  let metadata :=
    if lower (pySuffix name) = ".md".toList then extract_metadata content
    else ⟨pyStem name, [], []⟩
  { name := name
    path := joinPath relParts
    full_path := joinPath (rootParts ++ relParts)
    title := if metadata.title.isEmpty then pyStem name else metadata.title
    headers := metadata.headers
    keywords := metadata.keywords
    content := content.take 500
    size := content.length
    ftype :=
      if (lower (pySuffix name)).isEmpty then "file".toList
      else lower (pySuffix name)
    github_url :=
      "https://github.com/ftTower/CyberSecurity-Portfolio/blob/main/".toList ++
        joinPath relParts }

/-- The file-record half of `PortfolioIndexer.build_index` (`indexer.py`
lines 162-167): `entries` lists, in traversal order, the relative path
segments and content of every regular file yielded by the recursive
`rglob` walk of `root_path`; each entry passing `should_index` (applied to the
absolute path `rootParts ++ relParts`) is indexed. -/
def build_files (rootParts : List Str) (entries : List (List Str × Str)) :
    List FileInfo :=
  entries.filterMap (fun e =>
    if should_index (rootParts ++ e.1) then some (index_file rootParts e.1 e.2)
    else none)

/-! ## The directory tree (`build_tree_structure`) -/

/-- A filesystem snapshot: the input walked by the indexer.  The
`children` list of a directory is its `iterdir()` listing order. -/
inductive FsEntry where
  | file (name : Str) (content : Str)
  | dir (name : Str) (children : List FsEntry)

/-- The name of a filesystem entry. -/
def fsName : FsEntry → Str
  | .file n _ => n
  | .dir n _ => n

/-- The `path.is_dir()` test. -/
def entryIsDir : FsEntry → Bool
  | .file _ _ => false
  | .dir _ _ => true

/-- Python string `<` (lexicographic by code point), used by
`sorted(current_path.iterdir())`: sibling paths compare by name. -/
def strLt : Str → Str → Bool
  | _, [] => false
  | [], _ :: _ => true
  | a :: as, b :: bs => decide (a < b) || (a == b && strLt as bs)

/-- The skip test of `build_tree_structure` (`indexer.py` line 111):
hidden names and the fixed exclusion set (`.git` is covered by the hidden
test there). -/
def treeSkip (name : Str) : Bool :=
  ['.'].isPrefixOf name ||
    ["node_modules".toList, "venv".toList, "__pycache__".toList].contains name

/-- One node of the `tree` structure (the Python dict with keys `name`,
`path`, `type`, `children`; the `type` key is called `kind` here). -/
inductive TreeNode where
  | mk (name : Str) (path : Str) (kind : Str) (children : List TreeNode)

/-- The `name` key of a tree node. -/
def TreeNode.name : TreeNode → Str
  | .mk n _ _ _ => n

/-- The `path` key of a tree node. -/
def TreeNode.path : TreeNode → Str
  | .mk _ p _ _ => p

/-- The `type` key of a tree node. -/
def TreeNode.kind : TreeNode → Str
  | .mk _ _ k _ => k

/-- The `children` key of a tree node. -/
def TreeNode.children : TreeNode → List TreeNode
  | .mk _ _ _ c => c

/-- Rendering of `str(current_path.relative_to(base_path))`: `"."` for
the root itself, the joined segments otherwise. -/
def nodePath (rel : List Str) : Str :=
  if rel.isEmpty then ".".toList else joinPath rel

/-- Method `PortfolioIndexer.build_tree_structure` (`indexer.py` lines
98-119) for the entry `e` at path `rel` below the tree root (the
`root_path` of the indexer has segments `rootParts`; `should_index` receives absolute
paths).  Children are `sorted(iterdir())` by name; hidden and excluded
names are skipped; directories recurse unconditionally, files only if
`should_index` accepts them.  The sort is applied to the `attach`ed
listing so that each child carries its membership proof. -/
def build_tree_structure (rootParts rel : List Str) (e : FsEntry) : TreeNode :=
  TreeNode.mk (fsName e) (nodePath rel)
    (if entryIsDir e then "directory".toList else "file".toList)
    (match e with
     | .file _ _ => []
     | .dir _ cs =>
       (sortBy (fun a b => !(strLt (fsName b.1) (fsName a.1))) cs.attach).filterMap
         (fun c =>
           if treeSkip (fsName c.1) then none
           else if entryIsDir c.1 ||
               should_index (rootParts ++ rel ++ [fsName c.1]) then
             some (build_tree_structure rootParts (rel ++ [fsName c.1]) c.1)
           else none))
termination_by sizeOf e
decreasing_by
  have h := List.sizeOf_lt_of_mem c.2
  simp only [FsEntry.dir.sizeOf_spec]
  omega

/-- Node `n` occurs in tree `t` (as `t` itself or inside `children`,
recursively). -/
inductive InTree : TreeNode → TreeNode → Prop where
  | refl (t : TreeNode) : InTree t t
  | child {n c t : TreeNode} :
      c ∈ TreeNode.children t → InTree n c → InTree n t

/-! ## Concrete inputs used by counterexamples and witnesses -/

/-- A record whose filename strips (case-insensitively) to `readme` with a
`.txt` extension, directly under a folder `ssh`. -/
def fiReadmeTxt : FileInfo :=
  { name := "README.txt".toList, path := "ssh/README.txt".toList,
    full_path := [], title := [], headers := [], keywords := [],
    content := [], size := 0, ftype := ".txt".toList, github_url := [] }

/-- A record matched only through its content. -/
def fiContentOnly : FileInfo :=
  { name := "x.md".toList, path := "x.md".toList, full_path := [],
    title := "x".toList, headers := [], keywords := [],
    content := "ssh ssh".toList, size := 7, ftype := ".md".toList,
    github_url := [] }

/-- A minimal record named `a` at the index root. -/
def fiA : FileInfo :=
  { name := "a".toList, path := "a".toList, full_path := [],
    title := "a".toList, headers := [], keywords := [],
    content := [], size := 0, ftype := "file".toList, github_url := [] }

/-- A record `port-scan.md`. -/
def fiPortScan : FileInfo :=
  { name := "port-scan.md".toList, path := "scanning/port-scan.md".toList,
    full_path := [], title := "Port scanning".toList, headers := [],
    keywords := [], content := [], size := 0, ftype := ".md".toList,
    github_url := [] }

/-- A `readme.md` directly at the index root: its relative path has a
single segment. -/
def fiRootReadme : FileInfo :=
  { name := "readme.md".toList, path := "readme.md".toList, full_path := [],
    title := "Portfolio".toList, headers := [], keywords := [],
    content := [], size := 0, ftype := ".md".toList, github_url := [] }

/-- A one-file `rglob` enumeration. -/
def sampleEntries : List (List Str × Str) :=
  [(["notes.md".toList], "# Notes\nhello `cmd` world".toList)]

/-- Root path segments for the sample enumeration. -/
def sampleRoot : List Str := ["portfolio".toList]

/-- A filesystem whose root directory is itself named `.git`. -/
def fsGitRoot : FsEntry :=
  .dir ".git".toList [.dir "objects".toList []]

/-- An ordinary small filesystem containing a `.git` subdirectory. -/
def fsSample : FsEntry :=
  .dir "portfolio".toList
    [.file "notes.md".toList "# Notes".toList, .dir ".git".toList []]
/-! # Helper lemmas -/

theorem mem_insertBy {α : Type _} (le : α → α → Bool) (x a : α) (l : List α) :
    a ∈ insertBy le x l ↔ a = x ∨ a ∈ l := by
  induction l with
  | nil => simp [insertBy]
  | cons y ys ih =>
    by_cases h : le x y
    · simp [insertBy, h]
    · simp only [insertBy, if_neg h, List.mem_cons, ih]
      tauto

theorem mem_sortBy {α : Type _} (le : α → α → Bool) (a : α) (l : List α) :
    a ∈ sortBy le l ↔ a ∈ l := by
  induction l with
  | nil => simp [sortBy]
  | cons x xs ih =>
    simp only [sortBy, mem_insertBy, ih, List.mem_cons]

theorem pairwise_insertBy_scoreGe (x : ScoredFile) (l : List ScoredFile)
    (h : l.Pairwise (fun a b => b.score ≤ a.score)) :
    (insertBy scoreGe x l).Pairwise (fun a b => b.score ≤ a.score) := by
  induction l with
  | nil => simp [insertBy]
  | cons y ys ih =>
    rw [List.pairwise_cons] at h
    obtain ⟨hy, hys⟩ := h
    by_cases hc : scoreGe x y
    · have hxy : y.score ≤ x.score := of_decide_eq_true hc
      rw [insertBy, if_pos hc, List.pairwise_cons]
      refine ⟨?_, List.pairwise_cons.mpr ⟨hy, hys⟩⟩
      intro z hz
      rcases List.mem_cons.mp hz with rfl | hz
      · exact hxy
      · exact Nat.le_trans (hy z hz) hxy
    · have hxy : x.score ≤ y.score := by
        have := of_decide_eq_false (Bool.of_not_eq_true hc)
        omega
      rw [insertBy, if_neg hc, List.pairwise_cons]
      refine ⟨?_, ih hys⟩
      intro z hz
      rcases (mem_insertBy scoreGe x z ys).mp hz with rfl | hz
      · exact hxy
      · exact hy z hz

theorem pairwise_sortByScore (l : List ScoredFile) :
    (sortByScore l).Pairwise (fun a b => b.score ≤ a.score) := by
  induction l with
  | nil => exact List.Pairwise.nil
  | cons x xs ih => exact pairwise_insertBy_scoreGe x _ ih

theorem filter_insertBy_scoreGe (s : Nat) (x : ScoredFile) (l : List ScoredFile) :
    (insertBy scoreGe x l).filter (fun r => r.score == s) =
      if x.score == s then x :: l.filter (fun r => r.score == s)
      else l.filter (fun r => r.score == s) := by
  induction l with
  | nil =>
    rw [insertBy, List.filter_cons]
  | cons y ys ih =>
    by_cases hc : scoreGe x y
    · rw [insertBy, if_pos hc, List.filter_cons]
    · have hlt : x.score < y.score := by
        have := of_decide_eq_false (Bool.of_not_eq_true hc)
        omega
      rw [insertBy, if_neg hc, List.filter_cons, ih, List.filter_cons]
      by_cases hx : x.score == s
      · have hxs : x.score = s := by exact_mod_cast of_decide_eq_true hx
        have hy : (y.score == s) = false := by
          apply decide_eq_false
          omega
        rw [if_pos hx, hy, if_pos hx]
        simp
      · rw [if_neg hx, if_neg hx]

theorem filter_sortByScore (s : Nat) (l : List ScoredFile) :
    (sortByScore l).filter (fun r => r.score == s) =
      l.filter (fun r => r.score == s) := by
  induction l with
  | nil => rfl
  | cons x xs ih =>
    show (insertBy scoreGe x (sortByScore xs)).filter _ = _
    rw [filter_insertBy_scoreGe, List.filter_cons, ih]

theorem score_pos_of_mem_scoredList {score : Str → FileInfo → Nat}
    {terms : List Str} {files : List FileInfo} {r : ScoredFile}
    (h : r ∈ scoredList score terms files) : 0 < r.score := by
  unfold scoredList at h
  rw [List.mem_filterMap] at h
  obtain ⟨fi, _, heq⟩ := h
  simp only at heq
  split at heq
  · cases heq
    assumption
  · cases heq
theorem toLower_of_isWhitespace {c : Char} (h : c.isWhitespace) :
    c.toLower = c := by
  simp only [Char.isWhitespace, Bool.or_eq_true, decide_eq_true_eq] at h
  rcases h with ((h | h) | h) | h <;> subst h <;> decide

theorem pyStrip_eq_nil {q : Str} (h : ∀ c ∈ q, c.isWhitespace) :
    pyStrip q = [] := by
  unfold pyStrip
  rw [List.dropWhile_eq_nil_iff.mpr h]
  rfl

theorem foldr_wordsStep_all_nil {q : Str} (h : ∀ c ∈ q, c.isWhitespace) :
    ∀ w ∈ q.foldr wordsStep [], w = [] := by
  induction q with
  | nil => simp
  | cons c rest ih =>
    intro w hw
    rw [List.foldr_cons] at hw
    unfold wordsStep at hw
    rw [if_pos (h c (List.mem_cons_self c rest))] at hw
    rcases List.mem_cons.mp hw with rfl | hw
    · rfl
    · exact ih (fun d hd => h d (List.mem_cons_of_mem c hd)) w hw

theorem pyWords_eq_nil {q : Str} (h : ∀ c ∈ q, c.isWhitespace) :
    pyWords q = [] := by
  unfold pyWords
  rw [List.filter_eq_nil_iff]
  intro w hw
  rw [foldr_wordsStep_all_nil h w hw]
  decide

theorem lower_all_ws {q : Str} (h : ∀ c ∈ q, c.isWhitespace) :
    ∀ c ∈ lower q, c.isWhitespace := by
  intro c hc
  rw [lower, List.mem_map] at hc
  obtain ⟨a, ha, rfl⟩ := hc
  rw [toLower_of_isWhitespace (h a ha)]
  exact h a ha

theorem scoredList_nil_terms (score : Str → FileInfo → Nat)
    (files : List FileInfo) : scoredList score [] files = [] := by
  unfold scoredList
  rw [List.filterMap_eq_nil_iff]
  intro fi _
  simp
/-! # Claim theorems -/

/-- C7: for every query made of whitespace only (including the empty
query), both search implementations return the empty list (and, being
total functions, raise no error). -/
theorem empty_query_yields_empty (q : Str) (files : List FileInfo)
    (h : ∀ c ∈ q, c.isWhitespace) :
    serverSearch q files = [] ∧ indexerSearch q files = [] := by
  constructor
  · unfold serverSearch
    rw [pyStrip_eq_nil h]
    rfl
  · unfold indexerSearch
    rw [pyWords_eq_nil (lower_all_ws h), scoredList_nil_terms]
    rfl

/-- Witness for C7 at the three-space query over a nonempty index. -/
theorem empty_query_yields_empty_witness :
    (∀ c ∈ "   ".toList, c.isWhitespace) ∧
      (serverSearch "   ".toList [fiA] = [] ∧
        indexerSearch "   ".toList [fiA] = []) :=
  ⟨by decide, empty_query_yields_empty "   ".toList [fiA] (by decide)⟩

/-- C6: every result returned by either search implementation has a
strictly positive score; records with total score 0 are filtered out
before sorting. -/
theorem result_scores_positive (q : Str) (files : List FileInfo) :
    (∀ r ∈ serverSearch q files, 0 < r.score) ∧
    (∀ r ∈ indexerSearch q files, 0 < r.score) := by
  constructor
  · intro r hr
    unfold serverSearch at hr
    split at hr
    · simp at hr
    · have h1 := List.mem_of_mem_take hr
      rw [sortByScore, mem_sortBy] at h1
      exact score_pos_of_mem_scoredList h1
  · intro r hr
    unfold indexerSearch at hr
    rw [sortByScore, mem_sortBy] at hr
    exact score_pos_of_mem_scoredList hr

/-- Witness for C6: a concrete hit of a concrete search has positive
score. -/
theorem result_scores_positive_witness :
    ⟨fiA, 470⟩ ∈ serverSearch "a".toList [fiA] ∧
      (0 < (⟨fiA, 470⟩ : ScoredFile).score) :=
  ⟨by decide,
    (result_scores_positive "a".toList [fiA]).1 ⟨fiA, 470⟩ (by decide)⟩

/-- C2 (amended): the search route of the server truncates to at most 50
results after sorting. -/
theorem server_results_at_most_50 (q : Str) (files : List FileInfo) :
    (serverSearch q files).length ≤ 50 := by
  unfold serverSearch
  split
  · simp
  · rw [List.length_take]
    omega

/-- C2 counterexample: `PortfolioIndexer.search` does not truncate — on an
index of 51 matching records it returns 51 results, refuting "the search
operation returns at most 50 scored results" for the indexer search. -/
theorem indexer_search_can_exceed_50 :
    ¬ (indexerSearch "a".toList (List.replicate 51 fiA)).length ≤ 50 := by
  decide

/-- C3: the two scoring implementations disagree: on the record
`fiContentOnly` (content `"ssh ssh"`) and term `"ssh"`, the server scores
2 occurrences × 5 = 10 while `calculate_priority` scores
2 occurrences × 10 = 20. -/
theorem two_scorers_differ :
    ∃ (t : Str) (fi : FileInfo),
      serverTermScore t fi ≠ calculate_priority t fi :=
  ⟨"ssh".toList, fiContentOnly, by decide⟩

/-- C4: when the lower-cased filename with its extension stripped equals
the term, the filename signal is exactly 200 — the 100-point partial rule
is in the `elif` branch and cannot also fire. -/
theorem exact_filename_match_scores_200 (t : Str) (fi : FileInfo)
    (h : splitextStem (lower fi.name) = t) :
    filenameScore t fi = 200 := by
  unfold filenameScore
  rw [if_pos h]

/-- Witness for C4 at `port-scan.md` / query term `port-scan`. -/
theorem exact_filename_match_scores_200_witness :
    splitextStem (lower fiPortScan.name) = "port-scan".toList ∧
      filenameScore "port-scan".toList fiPortScan = 200 :=
  ⟨by decide,
    exact_filename_match_scores_200 "port-scan".toList fiPortScan (by decide)⟩
/-- C5: results of both search implementations are in non-increasing score
order, and among results of any equal score the original index-enumeration
order (the order of `scoredList`, which filters `files` in order) is
preserved: the sort is stable and truncation keeps a prefix. -/
theorem results_sorted_stable (q : Str) (files : List FileInfo) :
    ((serverSearch q files).Pairwise (fun a b => b.score ≤ a.score) ∧
      ∀ s : Nat,
        ((serverSearch q files).filter (fun r => r.score == s)).Sublist
          ((scoredList serverTermScore (serverTerms q) files).filter
            (fun r => r.score == s))) ∧
    ((indexerSearch q files).Pairwise (fun a b => b.score ≤ a.score) ∧
      ∀ s : Nat,
        (indexerSearch q files).filter (fun r => r.score == s) =
          (scoredList calculate_priority (pyWords (lower q)) files).filter
            (fun r => r.score == s)) := by
  refine ⟨⟨?_, ?_⟩, ?_, ?_⟩
  · unfold serverSearch
    split
    · exact List.Pairwise.nil
    · exact (pairwise_sortByScore _).sublist (List.take_sublist _ _)
  · intro s
    unfold serverSearch
    split
    · simp
    · have h := (List.take_sublist 50
        (sortByScore (scoredList serverTermScore (serverTerms q) files))).filter
          (fun r => r.score == s)
      rw [filter_sortByScore] at h
      exact h
  · exact pairwise_sortByScore _
  · intro s
    exact filter_sortByScore s _

/-- C10: a record whose relative path has a single segment (a file at the
index root) can never receive the parent-folder+readme bonus: the scorer
requires at least two path segments, so the per-term score is the sum of
the remaining signals only. -/
theorem single_segment_no_readme_bonus (t : Str) (fi : FileInfo)
    (h : (pySplitSlash (lower fi.path)).length = 1) :
    readmeBonus t fi = 0 ∧
      serverTermScore t fi =
        filenameScore t fi + folderScore t fi + contentScore t fi +
          titleScore t fi + headerScore t fi + keywordScore t fi := by
  have h0 : readmeBonus t fi = 0 := by
    unfold readmeBonus
    rw [if_neg (by omega)]
  refine ⟨h0, ?_⟩
  unfold serverTermScore
  rw [h0]
  omega

/-- Witness for C10 at a top-level `readme.md` and the term `readme`. -/
theorem single_segment_no_readme_bonus_witness :
    (pySplitSlash (lower fiRootReadme.path)).length = 1 ∧
      (readmeBonus "readme".toList fiRootReadme = 0 ∧
        serverTermScore "readme".toList fiRootReadme =
          filenameScore "readme".toList fiRootReadme +
            folderScore "readme".toList fiRootReadme +
            contentScore "readme".toList fiRootReadme +
            titleScore "readme".toList fiRootReadme +
            headerScore "readme".toList fiRootReadme +
            keywordScore "readme".toList fiRootReadme) :=
  ⟨by decide,
    single_segment_no_readme_bonus "readme".toList fiRootReadme (by decide)⟩

/-- C1 counterexample: for the record `ssh/README.txt` and term `ssh`, the
condition of the claim holds — the immediate parent segment equals the
term and the lower-cased, extension-stripped filename is `readme` — yet
the total score for the term is only 150 (exact folder match): the 300-point bonus is
not added, because the code compares the whole lower-cased filename
against the literals `readme.md`/`readme` and `readme.txt` is neither. -/
theorem readme_txt_gets_no_bonus :
    ((pySplitSlash (lower fiReadmeTxt.path)).getD
        ((pySplitSlash (lower fiReadmeTxt.path)).length - 2) [] =
          "ssh".toList ∧
      splitextStem (lower fiReadmeTxt.name) = "readme".toList) ∧
    serverTermScore "ssh".toList fiReadmeTxt = 150 := by
  decide

/-- C1 (amended): the scorer adds the 300-point bonus exactly when the
lower-cased relative path has at least two segments, its second-to-last
segment equals the term, and the lower-cased filename is literally
`readme.md` or literally `readme` (no other extension qualifies). -/
theorem readme_bonus_characterization (t : Str) (fi : FileInfo) :
    serverTermScore t fi =
      (if 2 ≤ (pySplitSlash (lower fi.path)).length ∧
          (pySplitSlash (lower fi.path)).getD
            ((pySplitSlash (lower fi.path)).length - 2) [] = t ∧
          (lower fi.name = "readme.md".toList ∨
            lower fi.name = "readme".toList)
        then 300 else 0) +
      (filenameScore t fi + folderScore t fi + contentScore t fi +
        titleScore t fi + headerScore t fi + keywordScore t fi) := by
  have hb : readmeBonus t fi =
      (if 2 ≤ (pySplitSlash (lower fi.path)).length ∧
          (pySplitSlash (lower fi.path)).getD
            ((pySplitSlash (lower fi.path)).length - 2) [] = t ∧
          (lower fi.name = "readme.md".toList ∨
            lower fi.name = "readme".toList)
        then 300 else 0) := by
    unfold readmeBonus
    by_cases h1 : 2 ≤ (pySplitSlash (lower fi.path)).length
    · by_cases h2 : (pySplitSlash (lower fi.path)).getD
          ((pySplitSlash (lower fi.path)).length - 2) [] = t ∧
          (lower fi.name = "readme.md".toList ∨
            lower fi.name = "readme".toList)
      · rw [if_pos h1, if_pos h2, if_pos ⟨h1, h2⟩]
      · rw [if_pos h1, if_neg h2, if_neg (fun h => h2 ⟨h.2.1, h.2.2⟩)]
    · rw [if_neg h1, if_neg (fun h => h1 h.1)]
  unfold serverTermScore
  rw [hb]
  omega
/-- C8: every record produced by the index build stores a content excerpt
of at most 500 characters, whatever the size of the source file. -/
theorem content_excerpt_capped (rootParts : List Str)
    (entries : List (List Str × Str)) (fi : FileInfo)
    (h : fi ∈ build_files rootParts entries) : fi.content.length ≤ 500 := by
  unfold build_files at h
  rw [List.mem_filterMap] at h
  obtain ⟨e, _, heq⟩ := h
  split at heq
  · cases heq
    show (index_file rootParts e.1 e.2).content.length ≤ 500
    simp only [index_file, List.length_take]
    omega
  · cases heq

/-- Witness for C8: the sample one-file build contains its record, whose
excerpt length is within the cap. -/
theorem content_excerpt_capped_witness :
    index_file sampleRoot ["notes.md".toList]
        "# Notes\nhello `cmd` world".toList ∈
      build_files sampleRoot sampleEntries ∧
    (index_file sampleRoot ["notes.md".toList]
        "# Notes\nhello `cmd` world".toList).content.length ≤ 500 :=
  ⟨by decide,
    content_excerpt_capped sampleRoot sampleEntries _ (by decide)⟩

/-! ## Path split/join round trip -/

theorem foldr_splitStep_no_sep (sep : Char) (p : Str) (w : Str)
    (ws : List Str) (h : ∀ c ∈ p, ¬(c = sep)) :
    p.foldr (splitStep sep) (w :: ws) = (p ++ w) :: ws := by
  induction p with
  | nil => rfl
  | cons c cs ih =>
    rw [List.foldr_cons, ih (fun d hd => h d (List.mem_cons_of_mem c hd))]
    unfold splitStep
    rw [if_neg (by simp only [beq_iff_eq]; exact h c (List.mem_cons_self c cs))]
    rfl

theorem pySplitOn_no_sep (sep : Char) (p : Str) (h : ∀ c ∈ p, ¬(c = sep)) :
    pySplitOn sep p = [p] := by
  unfold pySplitOn
  rw [foldr_splitStep_no_sep sep p [] [] h, List.append_nil]

theorem pySplitSlash_joinPath (parts : List Str) (hne : parts ≠ [])
    (h : ∀ p ∈ parts, ∀ c ∈ p, ¬(c = '/')) :
    pySplitSlash (joinPath parts) = parts := by
  induction parts with
  | nil => exact absurd rfl hne
  | cons p rest ih =>
    cases rest with
    | nil =>
      exact pySplitOn_no_sep '/' p (h p (List.mem_cons_self p []))
    | cons r rest' =>
      show pySplitOn '/' (p ++ '/' :: joinPath (r :: rest')) = _
      unfold pySplitOn
      rw [List.foldr_append, List.foldr_cons]
      have hrest : pySplitOn '/' (joinPath (r :: rest')) = r :: rest' :=
        ih (by simp) (fun q hq => h q (List.mem_cons_of_mem p hq))
      unfold pySplitOn at hrest
      rw [hrest]
      have hstep : splitStep '/' '/' (r :: rest') = [] :: r :: rest' := rfl
      rw [hstep]
      rw [foldr_splitStep_no_sep '/' p [] (r :: rest')
        (h p (List.mem_cons_self p _)), List.append_nil]

/-- A path with a `.git` segment is always rejected by `should_index`
(it is hidden and in the exclusion set). -/
theorem should_index_false_of_git {parts : List Str}
    (h : ".git".toList ∈ parts) : should_index parts = false := by
  unfold should_index
  rw [if_pos]
  exact List.any_eq_true.mpr ⟨".git".toList, h, by decide⟩
theorem build_tree_name (rootParts rel : List Str) (e : FsEntry) :
    (build_tree_structure rootParts rel e).name = fsName e := by
  rw [build_tree_structure.eq_def]
  rfl

theorem mem_build_tree_children {rootParts rel : List Str} {nm : Str}
    {cs : List FsEntry} {t : TreeNode}
    (h : t ∈ (build_tree_structure rootParts rel (.dir nm cs)).children) :
    ∃ c ∈ cs, treeSkip (fsName c) = false ∧
      t = build_tree_structure rootParts (rel ++ [fsName c]) c := by
  rw [build_tree_structure.eq_def] at h
  simp only [TreeNode.children] at h
  rw [List.mem_filterMap] at h
  obtain ⟨c, hc, heq⟩ := h
  refine ⟨c.1, c.2, ?_⟩
  split at heq
  · cases heq
  · split at heq
    · cases heq
      exact ⟨Bool.eq_false_iff.mpr ‹_›, rfl⟩
    · cases heq
/-- No node of a built tree is named `.git`, provided the root entry
itself is not named `.git` (children named `.git` are skipped as hidden).
Stated with a fuel bound for induction over the nested tree. -/
theorem tree_no_git_fuel :
    ∀ (k : Nat) (rootParts rel : List Str) (e : FsEntry),
      sizeOf e < k → fsName e ≠ ".git".toList →
      ∀ n, InTree n (build_tree_structure rootParts rel e) →
        TreeNode.name n ≠ ".git".toList := by
  intro k
  induction k with
  | zero =>
    intro _ _ e h
    exact absurd h (Nat.not_lt_zero _)
  | succ k ih =>
    intro rootParts rel e hk hroot n hin
    cases hin with
    | refl =>
      rw [build_tree_name]
      exact hroot
    | child hc hin' =>
      cases e with
      | file nm ct =>
        rw [build_tree_structure.eq_def] at hc
        simp only [TreeNode.children] at hc
        exact absurd hc (List.not_mem_nil _)
      | dir nm cs =>
        obtain ⟨c₀, hc₀, hskip, rfl⟩ := mem_build_tree_children hc
        have hname : fsName c₀ ≠ ".git".toList := by
          intro hgit
          rw [hgit] at hskip
          exact absurd hskip (by decide)
        have hsize : sizeOf c₀ < k := by
          have h1 := List.sizeOf_lt_of_mem hc₀
          have h2 : sizeOf (FsEntry.dir nm cs) < k + 1 := hk
          simp only [FsEntry.dir.sizeOf_spec] at h2
          omega
        exact ih rootParts (rel ++ [fsName c₀]) c₀ hsize hname n hin'

/-- C9 (amended): no file record has a relative path containing a `.git`
segment, and no node of the built tree other than possibly the root
itself is named `.git`; the root is covered by the hypothesis that the
indexed root directory is not itself named `.git`.  The `entries`
hypothesis states the filesystem facts that relative paths are nonempty
and path segments cannot contain the separator. -/
theorem no_git_in_files_or_tree (rootParts : List Str)
    (entries : List (List Str × Str)) (treeRoot rel : List Str)
    (fs : FsEntry)
    (hnames : ∀ e ∈ entries, e.1 ≠ [] ∧ ∀ p ∈ e.1, ∀ c ∈ p, ¬(c = '/'))
    (hroot : fsName fs ≠ ".git".toList) :
    (∀ fi ∈ build_files rootParts entries,
      ".git".toList ∉ pySplitSlash fi.path) ∧
    (∀ n, InTree n (build_tree_structure treeRoot rel fs) →
      TreeNode.name n ≠ ".git".toList) := by
  constructor
  · intro fi hfi hgit
    unfold build_files at hfi
    rw [List.mem_filterMap] at hfi
    obtain ⟨e, he, heq⟩ := hfi
    split at heq
    next hidx =>
      cases heq
      obtain ⟨hne, hsep⟩ := hnames e he
      have hpath : (index_file rootParts e.1 e.2).path = joinPath e.1 := by
        simp [index_file]
      rw [hpath, pySplitSlash_joinPath e.1 hne hsep] at hgit
      have hfalse : should_index (rootParts ++ e.1) = false :=
        should_index_false_of_git (List.mem_append_right rootParts hgit)
      rw [hidx] at hfalse
      exact absurd hfalse (by decide)
    next => cases heq
  · intro n hin
    exact tree_no_git_fuel (sizeOf fs + 1) treeRoot rel fs
      (Nat.lt_succ_self _) hroot n hin

/-- Witness for C9 (amended) on the sample one-file build and the sample
filesystem containing a `.git` subdirectory. -/
theorem no_git_in_files_or_tree_witness :
    (∀ e ∈ sampleEntries, e.1 ≠ [] ∧ ∀ p ∈ e.1, ∀ c ∈ p, ¬(c = '/')) ∧
    fsName fsSample ≠ ".git".toList ∧
    ((∀ fi ∈ build_files sampleRoot sampleEntries,
        ".git".toList ∉ pySplitSlash fi.path) ∧
      (∀ n, InTree n (build_tree_structure sampleRoot [] fsSample) →
        TreeNode.name n ≠ ".git".toList)) :=
  ⟨by decide, by decide,
    no_git_in_files_or_tree sampleRoot sampleEntries sampleRoot [] fsSample
      (by decide) (by decide)⟩

/-- C9 counterexample: when the indexed root directory is itself named
`.git`, `build_tree_structure` creates a tree node for it — a node named
`.git` occurs in the tree, refuting "no node for .git appears anywhere in
the tree" over every directory tree. -/
theorem git_root_node_in_tree :
    (build_tree_structure [] [] fsGitRoot).name = ".git".toList ∧
      InTree (build_tree_structure [] [] fsGitRoot)
        (build_tree_structure [] [] fsGitRoot) :=
  ⟨by rw [build_tree_name]; rfl, InTree.refl _⟩
